import Mathlib

/-!
Verification development for the text-to-speech relay application (src/app.py).

Strings are embedded as `List Char`.  Each `re.sub` call of `clean_text` is
embedded as a left-to-right, leftmost-match, non-overlapping substitution
driven by a matcher: the matcher inspects the head of the remaining input and,
when the regular expression matches there, returns the replacement text
together with the input remaining after the match (mirroring Python backtracking
semantics, spelled out matcher by matcher below).  The relay endpoint
`generate_speech` is embedded with the provider as an explicit function
argument, and it additionally returns the payload it sent upstream (`none`
when no upstream call was made).
-/

/-- Python whitespace (`\s` of `re` on `str`, and the characters stripped by
`str.strip`): ASCII whitespace plus the Unicode whitespace code points. -/
def pyIsSpace (c : Char) : Bool :=
  c == ' ' || c == '\t' || c == '\n' || c == '\r' || c == '\x0b' || c == '\x0c' ||
  c == '\x1c' || c == '\x1d' || c == '\x1e' || c == '\x1f' || c == '\x85' || c == '\xa0' ||
  c == '\u1680' || (decide (0x2000 ≤ c.toNat) && decide (c.toNat ≤ 0x200a)) ||
  c == '\u2028' || c == '\u2029' || c == '\u202f' || c == '\u205f' || c == '\u3000'

/-- Driver for `re.sub`: scan left to right; where the matcher fires, emit the
replacement and continue after the match (the replacement is not rescanned,
exactly as `re.sub`); otherwise keep the character and advance by one.
The fuel argument only serves termination; it is always instantiated with the
length of the list, which suffices because every matcher consumes at least
one character. -/
def subst (m : List Char → Option (List Char × List Char)) : Nat → List Char → List Char
  | _, [] => []
  | fuel + 1, c :: cs =>
    match m (c :: cs) with
    | some (r, rest) => r ++ subst m fuel rest
    | none => c :: subst m fuel cs
  | 0, l => l

def applySub (m : List Char → Option (List Char × List Char)) (l : List Char) : List Char :=
  subst m l.length l

/-- Matcher for `\[([^\]]+)\]\([^\)]+\)` (markdown links, replaced by the label).
`[^\]]+` deterministically takes everything up to the first `]`, which must be
followed by `(`; `[^\)]+` likewise runs to the first `)`. -/
def mLink : List Char → Option (List Char × List Char)
  | c :: r1 =>
    if c = '[' then
      let lab := r1.takeWhile (fun x => x != ']')
      match r1.dropWhile (fun x => x != ']') with
      | _ :: p :: r2 =>
        if lab ≠ [] ∧ p = '(' then
          let url := r2.takeWhile (fun x => x != ')')
          match r2.dropWhile (fun x => x != ')') with
          | _ :: rest => if url ≠ [] then some (lab, rest) else none
          | [] => none
        else none
      | _ => none
    else none
  | [] => none

/-- Lazy scan for the closing delimiter `d` of `(.*?)` (without DOTALL, so a
newline stops the scan): at each position the closing delimiter is tried first
(lazy semantics), otherwise one non-newline character is consumed.
Returns the group text and the input remaining after the closing delimiter. -/
def scanClose (d : List Char) : List Char → Option (List Char × List Char)
  | [] => none
  | c :: cs =>
    if d.isPrefixOf (c :: cs) then some ([], (c :: cs).drop d.length)
    else if c = '\n' then none
    else
      match scanClose d cs with
      | some (inn, rest) => some (c :: inn, rest)
      | none => none

/-- Matcher for `(\*\*|__)(.*?)\1` (bold, replaced by the group). -/
def mBold : List Char → Option (List Char × List Char)
  | c1 :: c2 :: t =>
    if c1 = '*' ∧ c2 = '*' then scanClose (['*', '*']) t
    else if c1 = '_' ∧ c2 = '_' then scanClose (['_', '_']) t
    else none
  | _ => none

/-- Matcher for `(\*|_)(.*?)\1` (italic, replaced by the group). -/
def mItalic : List Char → Option (List Char × List Char)
  | c :: t =>
    if c = '*' then scanClose (['*']) t
    else if c = '_' then scanClose (['_']) t
    else none
  | [] => none

/-- Matcher for `#{1,6}\s?` (heading markers, removed).  The pattern is not
anchored: `#{1,6}` greedily takes up to six consecutive `#` anywhere, then
`\s?` takes one following whitespace character when present. -/
def mHead : List Char → Option (List Char × List Char)
  | c :: t =>
    if c = '#' then
      let rest0 := t.drop (min ((t.takeWhile (fun x => x == '#')).length) 5)
      match rest0 with
      | d :: ds => if pyIsSpace d then some ([], ds) else some ([], d :: ds)
      | [] => some ([], [])
    else none
  | [] => none

/-- The backquote character. -/
def bq : Char := '\x60'

/-- Closing scan of `` .*?`{1,3} `` under DOTALL: consume any characters up to
the first backquote, where the greedy closing `` `{1,3} `` takes up to three
backquotes.  Only called when a backquote is known to occur in the input. -/
def closeTicks : List Char → List Char
  | [] => []
  | c :: cs =>
    if c = bq then cs.drop (min ((cs.takeWhile (fun x => x == bq)).length) 2)
    else closeTicks cs

/-- Greedy opening `` `{1,3} `` with backtracking: try the longest opening run
first; an opening length succeeds as soon as any backquote remains after it
(the lazy inner part then runs to that backquote). -/
def tryTicks (l : List Char) : Nat → Option (List Char × List Char)
  | 0 => none
  | o + 1 =>
    let rest0 := l.drop (o + 1)
    if bq ∈ rest0 then some ([], closeTicks rest0) else tryTicks l o

/-- Matcher for `` `{1,3}.*?`{1,3} `` with DOTALL (code spans, removed). -/
def mCode : List Char → Option (List Char × List Char)
  | c :: t =>
    if c = bq then tryTicks (c :: t) (min ((c :: t).takeWhile (fun x => x == bq)).length 3)
    else none
  | [] => none

/-- Matcher for `https?://\S+|www\.\S+` (URLs, removed): alternatives tried in
order at each position, the token then runs to the next whitespace. -/
def mUrl (l : List Char) : Option (List Char × List Char) :=
  if (("http").toList).isPrefixOf l then
    let l4 := l.drop 4
    let afterScheme : Option (List Char) :=
      if (("s://").toList).isPrefixOf l4 then some (l4.drop 4)
      else if (("://").toList).isPrefixOf l4 then some (l4.drop 3)
      else none
    match afterScheme with
    | some r2 =>
      let tok := r2.takeWhile (fun x => !pyIsSpace x)
      if tok ≠ [] then some ([], r2.dropWhile (fun x => !pyIsSpace x)) else none
    | none => none
  else if (("www.").toList).isPrefixOf l then
    let r2 := l.drop 4
    let tok := r2.takeWhile (fun x => !pyIsSpace x)
    if tok ≠ [] then some ([], r2.dropWhile (fun x => !pyIsSpace x)) else none
  else none

/-- Matcher for `\[\d+\]` (bracketed numeric citations, removed).
`\d` is embedded as the ASCII digits. -/
def mCit : List Char → Option (List Char × List Char)
  | c :: r1 =>
    if c = '[' then
      let ds := r1.takeWhile (fun x => x.isDigit)
      match r1.dropWhile (fun x => x.isDigit) with
      | b :: rest => if ds ≠ [] ∧ b = ']' then some ([], rest) else none
      | [] => none
    else none
  | [] => none

/-- Embedding of `re.sub(r' +', ' ', text)`: each maximal run of spaces becomes one space;
all other characters (newlines included) are untouched. -/
def collapseSpaces : List Char → List Char
  | [] => []
  | [c] => [c]
  | c1 :: c2 :: rest =>
    if c1 = ' ' ∧ c2 = ' ' then collapseSpaces (c2 :: rest)
    else c1 :: collapseSpaces (c2 :: rest)

/-- Embedding of `str.strip()`. -/
def pyStrip (l : List Char) : List Char :=
  ((l.dropWhile pyIsSpace).reverse.dropWhile pyIsSpace).reverse

/-- Embedding of `str.split(',')`. -/
def splitComma : List Char → List (List Char)
  | [] => [[]]
  | c :: cs =>
    if c = ',' then [] :: splitComma cs
    else
      match splitComma cs with
      | t :: ts => (c :: t) :: ts
      | [] => [[c]]

/-- Matcher used to embed `str.replace(kw, '')`: remove a literal occurrence of
`kw` at the current position (the guard keeps the matcher consuming). -/
def mKw (kw : List Char) (l : List Char) : Option (List Char × List Char) :=
  if kw = [] then none
  else if kw.isPrefixOf l then some ([], l.drop kw.length) else none

/-- Embedding of `text.replace(kw, '')`: one left-to-right pass, no rescanning of the part
already emitted. -/
def replaceDrop (kw : List Char) (l : List Char) : List Char :=
  applySub (mKw kw) l

/-- Embedding of the comprehension at line 54 of app.py:
`[k.strip() for k in custom_keywords.split(',') if k.strip()]`. -/
def parseKeywords (s : List Char) : List (List Char) :=
  ((splitComma s).map pyStrip).filter (fun k => !k.isEmpty)

/-- Lines 52-56 of app.py: the custom-keyword removal pass (a no-op when the
configured string is empty, since `if custom_keywords:` is then false). -/
def customKeywordsPass (s : List Char) (l : List Char) : List Char :=
  if s ≠ [] then (parseKeywords s).foldl (fun acc kw => replaceDrop kw acc) l else l

/-- The `cleaningOptions` record (absent flags are falsy in Python, hence the
`false` defaults; an absent `customKeywords` behaves as the empty string). -/
structure CleaningOptions where
  removeMarkdown : Bool := false
  removeEmoji : Bool := false
  removeUrl : Bool := false
  removeCitations : Bool := false
  removeWhitespace : Bool := false
  customKeywords : List Char := []
deriving DecidableEq

def subLinks (l : List Char) : List Char := applySub mLink l
def subBold (l : List Char) : List Char := applySub mBold l
def subItalic (l : List Char) : List Char := applySub mItalic l
def stripHeaders (l : List Char) : List Char := applySub mHead l
def stripCode (l : List Char) : List Char := applySub mCode l
def subUrl (l : List Char) : List Char := applySub mUrl l
def subCitations (l : List Char) : List Char := applySub mCit l

/-- Embedding of `re.sub(r'\s+', '', text)`: removing every whitespace run is removing every
whitespace character. -/
def removeAllWhitespace (l : List Char) : List Char :=
  l.filter (fun c => !pyIsSpace c)

/-- Embedding of `re.sub(r'[\U00010000-\U0010ffff]', '', text)`: drop the supplementary
planes.  The preceding utf-16 encode/decode round-trip in the source is the
identity on well-formed strings and is not represented. -/
def removeEmojiPass (l : List Char) : List Char :=
  l.filter (fun c => decide (c.toNat < 0x10000))

/-- Lines 26-32 of app.py: the `removeMarkdown` block (links, bold, italic,
headers, code spans, in that order). -/
def mdStage (options : CleaningOptions) (t : List Char) : List Char :=
  if options.removeMarkdown then stripCode (stripHeaders (subItalic (subBold (subLinks t))))
  else t

/-- Lines 34-37 of app.py: the `removeEmoji` block. -/
def emojiStage (options : CleaningOptions) (t : List Char) : List Char :=
  if options.removeEmoji then removeEmojiPass t else t

/-- Lines 39-40 of app.py: the `removeUrl` block. -/
def urlStage (options : CleaningOptions) (t : List Char) : List Char :=
  if options.removeUrl then subUrl t else t

/-- Lines 42-43 of app.py: the `removeCitations` block. -/
def citStage (options : CleaningOptions) (t : List Char) : List Char :=
  if options.removeCitations then subCitations t else t

/-- Lines 45-50 of app.py: remove all whitespace when `removeWhitespace` is
set, otherwise collapse runs of spaces (one branch or the other, never both). -/
def wsStage (options : CleaningOptions) (t : List Char) : List Char :=
  if options.removeWhitespace then removeAllWhitespace t else collapseSpaces t

/-- Embedding of `clean_text` of app.py (lines 22-58), transform for transform in source
order. -/
def clean_text (text : List Char) (options : CleaningOptions) : List Char :=
  if text = [] then text
  else
    let t1 := mdStage options text
    let t2 := emojiStage options t1
    let t3 := urlStage options t2
    let t4 := citStage options t3
    let t5 := wsStage options t4
    let t6 := customKeywordsPass options.customKeywords t5
    pyStrip t6


/-- A JSON scalar as handed to `float(...)`: the speed/pitch request fields. -/
inductive JVal where
  | num (q : ℚ)
  | str (s : List Char)
deriving DecidableEq

def digitsVal (ds : List Char) : Nat :=
  ds.foldl (fun a c => a * 10 + (c.toNat - 48)) 0

/-- Embedding of `float(s)` on a string: strip whitespace, optional sign, decimal digits
with an optional fraction part, optional exponent.  Nonfinite literals
(inf, nan) and underscore digit separators are outside the scope of this model.
Returns `none` exactly when `float` raises `ValueError`.  The value is built
with `mkRat` over integer arithmetic. -/
def pyFloatOfStr (s : List Char) : Option ℚ :=
  let t := pyStrip s
  let signed : Int × List Char :=
    match t with
    | '+' :: r => (1, r)
    | '-' :: r => (-1, r)
    | r => (1, r)
  let sign := signed.1
  let t1 := signed.2
  let ip := t1.takeWhile (fun c => c.isDigit)
  let r1 := t1.dropWhile (fun c => c.isDigit)
  let fracked : List Char × List Char :=
    match r1 with
    | '.' :: r => (r.takeWhile (fun c => c.isDigit), r.dropWhile (fun c => c.isDigit))
    | r => ([], r)
  let fp := fracked.1
  let r2 := fracked.2
  if ip = [] ∧ fp = [] then none
  else
    let mantNum : Int := sign * ((digitsVal ip * 10 ^ fp.length + digitsVal fp : Nat) : Int)
    let mantDen : Nat := 10 ^ fp.length
    match r2 with
    | [] => some (mkRat mantNum mantDen)
    | e :: r3 =>
      if e = 'e' ∨ e = 'E' then
        let esigned : Bool × List Char :=
          match r3 with
          | '+' :: r => (false, r)
          | '-' :: r => (true, r)
          | r => (false, r)
        let eds := esigned.2.takeWhile (fun c => c.isDigit)
        if eds ≠ [] ∧ esigned.2.dropWhile (fun c => c.isDigit) = [] then
          if esigned.1 then some (mkRat mantNum (mantDen * 10 ^ digitsVal eds))
          else some (mkRat (mantNum * ((10 ^ digitsVal eds : Nat) : Int)) mantDen)
        else none
      else none

/-- The message of the `ValueError` raised by `float` on a bad string. -/
def floatErrMsg (s : List Char) : List Char :=
  ("could not convert string to float: ").toList ++ s

/-- Embedding of `float(v)` for the values a JSON speed/pitch field can hold here. -/
def pyFloat : JVal → Except (List Char) ℚ
  | .num q => .ok q
  | .str s =>
    match pyFloatOfStr s with
    | some q => .ok q
    | none => .error (floatErrMsg s)

/-- The JSON body of the inbound request; `none` is an absent field
(`data.get` then supplies the default). -/
structure RequestData where
  input : Option (List Char) := none
  voice : Option (List Char) := none
  speed : Option JVal := none
  pitch : Option JVal := none
  cleaningOptions : Option CleaningOptions := none
deriving DecidableEq

/-- What the provider answers when the POST goes through. -/
structure ProviderResponse where
  status_code : Nat
  text : List Char
  contentType : Option (List Char)
  chunks : List (List Char)
deriving DecidableEq

/-- The outbound payload of app.py lines 87-94. -/
structure Payload where
  model : List Char
  input : List Char
  voice : List Char
  speed : ℚ
  pitch : ℚ
  stream : Bool
deriving DecidableEq

/-- The static voice table of app.py lines 13-20. -/
def VOICE_MAP : List (List Char × List Char) :=
  [(("shimmer").toList, ("zh-CN-XiaoxiaoNeural").toList),
   (("alloy").toList, ("zh-CN-YunyangNeural").toList),
   (("fable").toList, ("zh-CN-YunjianNeural").toList),
   (("onyx").toList, ("zh-CN-XiaoyiNeural").toList),
   (("nova").toList, ("zh-CN-YunxiNeural").toList),
   (("echo").toList, ("zh-CN-liaoning-XiaobeiNeural").toList)]

/-- Embedding of the `dict` lookup in `VOICE_MAP.get(voice_key, voice_key)`. -/
def lookupVoice : List (List Char × List Char) → List Char → Option (List Char)
  | [], _ => none
  | (k, v) :: rest, key => if key = k then some v else lookupVoice rest key

/-- What the endpoint hands back to the caller.  `errorJson s m` is the pair
`{"error": m}, s`; `stream` is the chunked passthrough; `uncaught` is an
exception escaping the handler (only the `float` conversions sit outside the
try block). -/
inductive RelayOutcome where
  | errorJson (status : Nat) (message : List Char)
  | stream (chunks : List (List Char)) (contentType : List Char)
  | uncaught (message : List Char)
deriving DecidableEq

def emptyTextMsg : List Char := ("清理后的文本为空或输入文本缺失").toList

/-- Embedding of `generate_speech` of app.py (lines 64-108).  The provider is passed in as
a function; a transport exception is its `Except.error`.  Besides the outcome,
the embedding returns the payload of the upstream call, `none` when the
provider was never invoked. -/
def generate_speech (data : RequestData)
    (provider : Payload → Except (List Char) ProviderResponse) :
    RelayOutcome × Option Payload :=
  let text0 := data.input.getD []
  let voice_key := data.voice.getD (("shimmer").toList)
  match pyFloat (data.speed.getD (JVal.num 1)) with
  | .error e => (.uncaught e, none)
  | .ok speed =>
    match pyFloat (data.pitch.getD (JVal.num 1)) with
    | .error e => (.uncaught e, none)
    | .ok pitch =>
      let cleaning_options := data.cleaningOptions.getD {}
      let text := clean_text text0 cleaning_options
      if text = [] then (.errorJson 400 emptyTextMsg, none)
      else
        let final_voice := (lookupVoice VOICE_MAP voice_key).getD voice_key
        let payload : Payload :=
          { model := ("tts-1-").toList ++ voice_key, input := text,
            voice := final_voice, speed := speed, pitch := pitch, stream := true }
        match provider payload with
        | .error e => (.errorJson 500 e, some payload)
        | .ok response =>
          if response.status_code ≠ 200 then
            (.errorJson response.status_code
              (("API Error: ").toList ++ response.text), some payload)
          else
            (.stream response.chunks
              (response.contentType.getD (("audio/mpeg").toList)), some payload)


/-! ## Generic lemmas about the substitution engine -/

/-- A matcher whose replacement plus remainder never exceeds what it consumed. -/
def MatchBound (m : List Char → Option (List Char × List Char)) : Prop :=
  ∀ l r rest, m l = some (r, rest) → r.length + rest.length ≤ l.length

theorem subst_length {m} (hm : MatchBound m) :
    ∀ (fuel : Nat) (l : List Char), (subst m fuel l).length ≤ l.length := by
  intro fuel
  induction fuel with
  | zero => intro l; cases l <;> simp [subst]
  | succ f ih =>
    intro l
    cases l with
    | nil => simp [subst]
    | cons c cs =>
      rw [subst]
      rcases hml : m (c :: cs) with _ | ⟨r, rest⟩
      · simpa using ih cs
      · have := hm _ _ _ hml
        have := ih rest
        simp only [List.length_append, List.length_cons] at *
        omega

theorem applySub_length {m} (hm : MatchBound m) (l : List Char) :
    (applySub m l).length ≤ l.length :=
  subst_length hm l.length l

/-- A matcher that only rearranges or drops characters of its input. -/
def MatchSub (m : List Char → Option (List Char × List Char)) : Prop :=
  ∀ l r rest, m l = some (r, rest) → ∀ c, (c ∈ r ∨ c ∈ rest) → c ∈ l

theorem subst_mem {m} (hm : MatchSub m) :
    ∀ (fuel : Nat) (l : List Char) (c : Char), c ∈ subst m fuel l → c ∈ l := by
  intro fuel
  induction fuel with
  | zero => intro l c; cases l <;> simp [subst]
  | succ f ih =>
    intro l c
    cases l with
    | nil => simp [subst]
    | cons a cs =>
      rw [subst]
      rcases hml : m (a :: cs) with _ | ⟨r, rest⟩
      · intro hc
        rcases List.mem_cons.mp hc with h | h
        · simp [h]
        · exact List.mem_cons_of_mem _ (ih cs c h)
      · intro hc
        rcases List.mem_append.mp hc with h | h
        · exact hm _ _ _ hml c (Or.inl h)
        · exact hm _ _ _ hml c (Or.inr (ih rest c h))

theorem applySub_mem {m} (hm : MatchSub m) (l : List Char) (c : Char) :
    c ∈ applySub m l → c ∈ l :=
  subst_mem hm l.length l c

/-! ## Bounds for the individual matchers -/

theorem length_dropWhile_self_le (p : Char → Bool) (l : List Char) :
    (l.dropWhile p).length ≤ l.length :=
  (List.dropWhile_suffix p).length_le

theorem mLink_bound : MatchBound mLink := by
  intro l r rest h
  cases l with
  | nil => simp [mLink] at h
  | cons c r1 =>
    simp only [mLink] at h
    split at h
    · rcases hdw : r1.dropWhile (fun x => x != ']') with _ | ⟨b, bs⟩
      · rw [hdw] at h; simp at h
      · rcases bs with _ | ⟨p, r2⟩
        · rw [hdw] at h; simp at h
        · rw [hdw] at h
          dsimp only at h
          split at h
          · rcases hdw2 : r2.dropWhile (fun x => x != ')') with _ | ⟨b2, rest2⟩
            · rw [hdw2] at h; simp at h
            · rw [hdw2] at h
              dsimp only at h
              split at h
              · simp only [Option.some.injEq, Prod.mk.injEq] at h
                obtain ⟨rfl, rfl⟩ := h
                have e1 : r1.takeWhile (fun x => x != ']') ++
                    r1.dropWhile (fun x => x != ']') = r1 :=
                  List.takeWhile_append_dropWhile (p := fun x => x != ']') (l := r1)
                have e2 : r2.takeWhile (fun x => x != ')') ++
                    r2.dropWhile (fun x => x != ')') = r2 :=
                  List.takeWhile_append_dropWhile (p := fun x => x != ')') (l := r2)
                rw [hdw] at e1; rw [hdw2] at e2
                have l1 := congrArg List.length e1
                have l2 := congrArg List.length e2
                simp only [List.length_append, List.length_cons] at l1 l2 ⊢
                omega
              · simp at h
          · simp at h
    · simp at h

theorem scanClose_bound (d : List Char) :
    ∀ l inn rest, scanClose d l = some (inn, rest) →
      d.length + inn.length + rest.length ≤ l.length := by
  intro l
  induction l with
  | nil => intro inn rest h; simp [scanClose] at h
  | cons c cs ih =>
    intro inn rest h
    rw [scanClose] at h
    split at h
    · rcases h with ⟨rfl, rfl⟩
      rename_i hpre
      have hd : d <+: (c :: cs) := List.isPrefixOf_iff_prefix.mp hpre
      have := hd.length_le
      simp only [List.length_nil, List.length_drop, List.length_cons] at *
      omega
    · split at h
      · exact absurd h (by simp)
      · rcases hsc : scanClose d cs with _ | ⟨inn2, rest2⟩ <;> rw [hsc] at h
        · exact absurd h (by simp)
        · rcases h with ⟨rfl, rfl⟩
          have := ih _ _ hsc
          simp only [List.length_cons] at *
          omega

theorem mBold_bound : MatchBound mBold := by
  intro l r rest h
  cases l with
  | nil => simp [mBold] at h
  | cons c1 l1 =>
    cases l1 with
    | nil => simp [mBold] at h
    | cons c2 t =>
      rw [mBold] at h
      split at h
      · have := scanClose_bound _ _ _ _ h
        simp only [List.length_cons] at *
        omega
      · split at h
        · have := scanClose_bound _ _ _ _ h
          simp only [List.length_cons] at *
          omega
        · exact absurd h (by simp)

theorem mItalic_bound : MatchBound mItalic := by
  intro l r rest h
  cases l with
  | nil => simp [mItalic] at h
  | cons c t =>
    rw [mItalic] at h
    split at h
    · have := scanClose_bound _ _ _ _ h
      simp only [List.length_cons] at *
      omega
    · split at h
      · have := scanClose_bound _ _ _ _ h
        simp only [List.length_cons] at *
        omega
      · exact absurd h (by simp)

theorem mHead_bound : MatchBound mHead := by
  intro l r rest h
  cases l with
  | nil => simp [mHead] at h
  | cons c t =>
    simp only [mHead] at h
    split at h
    · have hdl : (t.drop (min ((t.takeWhile (fun x => x == '#')).length) 5)).length ≤ t.length := by
        simp [List.length_drop]
      rcases hr0 : t.drop (min ((t.takeWhile (fun x => x == '#')).length) 5) with _ | ⟨d, ds⟩ <;>
          rw [hr0] at h hdl
      · simp only [Option.some.injEq, Prod.mk.injEq] at h
        obtain ⟨rfl, rfl⟩ := h
        simp
      · dsimp only at h
        split at h <;>
          · simp only [Option.some.injEq, Prod.mk.injEq] at h
            obtain ⟨rfl, rfl⟩ := h
            simp only [List.length_cons, List.length_nil] at *
            omega
    · simp at h

theorem closeTicks_length (l : List Char) : (closeTicks l).length ≤ l.length := by
  induction l with
  | nil => simp [closeTicks]
  | cons c cs ih =>
    rw [closeTicks]
    split
    · simp only [List.length_drop, List.length_cons]; omega
    · simp only [List.length_cons]; omega

theorem tryTicks_bound (l : List Char) :
    ∀ o r rest, tryTicks l o = some (r, rest) → r = [] ∧ rest.length ≤ l.length - 1 := by
  intro o
  induction o with
  | zero => intro r rest h; simp [tryTicks] at h
  | succ o ih =>
    intro r rest h
    rw [tryTicks] at h
    split at h
    · rcases h with ⟨rfl, rfl⟩
      refine ⟨rfl, ?_⟩
      have h1 := closeTicks_length (l.drop (o + 1))
      simp only [List.length_drop] at h1 ⊢
      omega
    · exact ih _ _ h

theorem mCode_bound : MatchBound mCode := by
  intro l r rest h
  cases l with
  | nil => simp [mCode] at h
  | cons c t =>
    rw [mCode] at h
    split at h
    · have := (tryTicks_bound _ _ _ _ h).2
      have := (tryTicks_bound _ _ _ _ h).1
      subst this
      simp only [List.length_nil, List.length_cons] at *
      omega
    · exact absurd h (by simp)

theorem mUrl_bound : MatchBound mUrl := by
  intro l r rest h
  simp only [mUrl] at h
  split at h
  · split at h
    · rename_i r2 heq
      split at h
      · simp only [Option.some.injEq, Prod.mk.injEq] at h
        obtain ⟨rfl, rfl⟩ := h
        have hr2 : r2.length ≤ l.length := by
          split at heq
          · cases heq; simp [List.length_drop]
          · split at heq
            · cases heq; simp [List.length_drop]
            · simp at heq
        have := length_dropWhile_self_le (fun x => !pyIsSpace x) r2
        simp only [List.length_nil]
        omega
      · simp at h
    · simp at h
  · split at h
    · split at h
      · simp only [Option.some.injEq, Prod.mk.injEq] at h
        obtain ⟨rfl, rfl⟩ := h
        have := length_dropWhile_self_le (fun x => !pyIsSpace x) (l.drop 4)
        simp only [List.length_nil, List.length_drop] at *
        omega
      · simp at h
    · simp at h

theorem mCit_bound : MatchBound mCit := by
  intro l r rest h
  cases l with
  | nil => simp [mCit] at h
  | cons c r1 =>
    simp only [mCit] at h
    split at h
    · rcases hdw : r1.dropWhile (fun x => x.isDigit) with _ | ⟨b, rest2⟩
      · rw [hdw] at h; simp at h
      · rw [hdw] at h
        dsimp only at h
        split at h
        · simp only [Option.some.injEq, Prod.mk.injEq] at h
          obtain ⟨rfl, rfl⟩ := h
          have e1 : r1.takeWhile (fun x => x.isDigit) ++ r1.dropWhile (fun x => x.isDigit) = r1 :=
            List.takeWhile_append_dropWhile (p := fun x => x.isDigit) (l := r1)
          rw [hdw] at e1
          have l1 := congrArg List.length e1
          simp only [List.length_append, List.length_cons, List.length_nil] at *
          omega
        · simp at h
    · simp at h

theorem mKw_bound (kw : List Char) : MatchBound (mKw kw) := by
  intro l r rest h
  rw [mKw] at h
  split at h
  · simp at h
  · split at h
    · simp only [Option.some.injEq, Prod.mk.injEq] at h
      obtain ⟨rfl, rfl⟩ := h
      simp [List.length_drop]
    · simp at h

/-! ## Length bounds for the transforms and for clean_text (no transform grows the text) -/

theorem subLinks_length (l : List Char) : (subLinks l).length ≤ l.length :=
  applySub_length mLink_bound l
theorem subBold_length (l : List Char) : (subBold l).length ≤ l.length :=
  applySub_length mBold_bound l
theorem subItalic_length (l : List Char) : (subItalic l).length ≤ l.length :=
  applySub_length mItalic_bound l
theorem stripHeaders_length (l : List Char) : (stripHeaders l).length ≤ l.length :=
  applySub_length mHead_bound l
theorem stripCode_length (l : List Char) : (stripCode l).length ≤ l.length :=
  applySub_length mCode_bound l
theorem subUrl_length (l : List Char) : (subUrl l).length ≤ l.length :=
  applySub_length mUrl_bound l
theorem subCitations_length (l : List Char) : (subCitations l).length ≤ l.length :=
  applySub_length mCit_bound l
theorem replaceDrop_length (kw l : List Char) : (replaceDrop kw l).length ≤ l.length :=
  applySub_length (mKw_bound kw) l

theorem collapseSpaces_length (l : List Char) : (collapseSpaces l).length ≤ l.length := by
  induction l using collapseSpaces.induct with
  | case1 => simp [collapseSpaces]
  | case2 c => simp [collapseSpaces]
  | case3 c1 c2 rest h ih =>
    rw [collapseSpaces, if_pos h]
    simp only [List.length_cons] at *
    omega
  | case4 c1 c2 rest h ih =>
    rw [collapseSpaces, if_neg h]
    simp only [List.length_cons] at *
    omega

theorem pyStrip_infix_self (l : List Char) : pyStrip l <:+: l := by
  have h1 : l.dropWhile pyIsSpace <:+ l := List.dropWhile_suffix _
  have h2 : (l.dropWhile pyIsSpace).reverse.dropWhile pyIsSpace <:+
      (l.dropWhile pyIsSpace).reverse := List.dropWhile_suffix _
  have h3 : ((l.dropWhile pyIsSpace).reverse.dropWhile pyIsSpace).reverse <+:
      l.dropWhile pyIsSpace := by
    rw [← List.reverse_suffix]
    simpa using h2
  exact h3.isInfix.trans h1.isInfix

theorem pyStrip_length (l : List Char) : (pyStrip l).length ≤ l.length :=
  (pyStrip_infix_self l).length_le

theorem mem_pyStrip {c : Char} {l : List Char} (h : c ∈ pyStrip l) : c ∈ l :=
  (pyStrip_infix_self l).subset h

theorem foldl_replaceDrop_length (kws : List (List Char)) :
    ∀ l : List Char, (kws.foldl (fun acc kw => replaceDrop kw acc) l).length ≤ l.length := by
  induction kws with
  | nil => intro l; simp
  | cons kw kws ih =>
    intro l
    simp only [List.foldl_cons]
    exact le_trans (ih _) (replaceDrop_length kw l)

theorem customKeywordsPass_length (s l : List Char) :
    (customKeywordsPass s l).length ≤ l.length := by
  rw [customKeywordsPass]
  split
  · exact foldl_replaceDrop_length _ l
  · exact Nat.le_refl _

/-- C10 auxiliary: the removeMarkdown block. -/
theorem markdownChain_length (l : List Char) :
    (stripCode (stripHeaders (subItalic (subBold (subLinks l))))).length ≤ l.length :=
  le_trans (stripCode_length _) <| le_trans (stripHeaders_length _) <|
    le_trans (subItalic_length _) <| le_trans (subBold_length _) (subLinks_length l)

theorem mdStage_length (o : CleaningOptions) (x : List Char) :
    (mdStage o x).length ≤ x.length := by
  rw [mdStage]; split
  · exact markdownChain_length x
  · exact Nat.le_refl _

theorem emojiStage_length (o : CleaningOptions) (x : List Char) :
    (emojiStage o x).length ≤ x.length := by
  rw [emojiStage]; split
  · exact List.length_filter_le _ _
  · exact Nat.le_refl _

theorem urlStage_length (o : CleaningOptions) (x : List Char) :
    (urlStage o x).length ≤ x.length := by
  rw [urlStage]; split
  · exact subUrl_length x
  · exact Nat.le_refl _

theorem citStage_length (o : CleaningOptions) (x : List Char) :
    (citStage o x).length ≤ x.length := by
  rw [citStage]; split
  · exact subCitations_length x
  · exact Nat.le_refl _

theorem wsStage_length (o : CleaningOptions) (x : List Char) :
    (wsStage o x).length ≤ x.length := by
  rw [wsStage]; split
  · exact List.length_filter_le _ _
  · exact collapseSpaces_length x

/-- C10: clean_text never makes the string longer. -/
theorem clean_text_length_le (t : List Char) (o : CleaningOptions) :
    (clean_text t o).length ≤ t.length := by
  rw [clean_text]
  split
  · exact Nat.le_refl _
  · exact le_trans (pyStrip_length _) <| le_trans (customKeywordsPass_length _ _) <|
      le_trans (wsStage_length _ _) <| le_trans (citStage_length _ _) <|
        le_trans (urlStage_length _ _) <| le_trans (emojiStage_length _ _)
          (mdStage_length _ _)

/-! ## Space-run structure and strip lemmas (for idempotence and whitespace claims) -/

/-- No two consecutive space characters occur. -/
def noDoubleSpace : List Char → Bool
  | c1 :: c2 :: rest => !(c1 == ' ' && c2 == ' ') && noDoubleSpace (c2 :: rest)
  | _ => true

theorem noDoubleSpace_iff_chain (l : List Char) :
    noDoubleSpace l = true ↔ l.Chain' (fun a b => ¬(a = ' ' ∧ b = ' ')) := by
  induction l with
  | nil => simp [noDoubleSpace]
  | cons c cs ih =>
    cases cs with
    | nil => simp [noDoubleSpace]
    | cons c2 rest =>
      rw [noDoubleSpace, List.chain'_cons, ← ih]
      simp [Bool.and_eq_true, not_and]
      tauto

theorem collapse_cons (x : Char) (xs : List Char) :
    ∃ ys, collapseSpaces (x :: xs) = x :: ys := by
  induction xs generalizing x with
  | nil => exact ⟨[], rfl⟩
  | cons c2 rest ih =>
    rw [collapseSpaces]
    split
    · rename_i h
      obtain ⟨ys, hys⟩ := ih c2
      exact ⟨ys, by rw [hys, h.1, h.2]⟩
    · exact ⟨collapseSpaces (c2 :: rest), rfl⟩

theorem noDoubleSpace_collapse (l : List Char) : noDoubleSpace (collapseSpaces l) = true := by
  induction l using collapseSpaces.induct with
  | case1 => simp [collapseSpaces, noDoubleSpace]
  | case2 c => simp [collapseSpaces, noDoubleSpace]
  | case3 c1 c2 rest h ih => rw [collapseSpaces, if_pos h]; exact ih
  | case4 c1 c2 rest h ih =>
    rw [collapseSpaces, if_neg h]
    obtain ⟨ys, hys⟩ := collapse_cons c2 rest
    rw [hys] at ih ⊢
    rw [noDoubleSpace]
    simp only [Bool.and_eq_true, Bool.not_eq_true', Bool.and_eq_false_iff]
    refine ⟨?_, ih⟩
    by_cases h1 : c1 = ' '
    · by_cases h2 : c2 = ' '
      · exact absurd ⟨h1, h2⟩ h
      · exact Or.inr (by simpa using h2)
    · exact Or.inl (by simpa using h1)

theorem collapse_eq_self {l : List Char} (h : noDoubleSpace l = true) :
    collapseSpaces l = l := by
  induction l using collapseSpaces.induct with
  | case1 => rfl
  | case2 c => rfl
  | case3 c1 c2 rest hsp ih =>
    rw [noDoubleSpace] at h
    simp only [Bool.and_eq_true, Bool.not_eq_true', Bool.and_eq_false_iff] at h
    rcases h.1 with h1 | h1 <;> simp [hsp.1, hsp.2] at h1
  | case4 c1 c2 rest hsp ih =>
    rw [collapseSpaces, if_neg hsp]
    rw [noDoubleSpace] at h
    simp only [Bool.and_eq_true] at h
    rw [ih h.2]

theorem noDoubleSpace_mono {l m : List Char} (hm : l <:+: m)
    (h : noDoubleSpace m = true) : noDoubleSpace l = true := by
  have hc := (noDoubleSpace_iff_chain m).mp h
  have hc2 := hc.infix hm
  exact (noDoubleSpace_iff_chain l).mpr hc2

theorem mem_collapse {c : Char} : ∀ {l : List Char}, c ∈ collapseSpaces l → c ∈ l := by
  intro l
  induction l using collapseSpaces.induct with
  | case1 => simp [collapseSpaces]
  | case2 d => simp [collapseSpaces]
  | case3 c1 c2 rest h ih =>
    rw [collapseSpaces, if_pos h]
    intro hc
    exact List.mem_cons_of_mem _ (ih hc)
  | case4 c1 c2 rest h ih =>
    rw [collapseSpaces, if_neg h]
    intro hc
    rcases List.mem_cons.mp hc with h1 | h1
    · simp [h1]
    · exact List.mem_cons_of_mem _ (ih h1)

theorem dropWhile_idem (p : Char → Bool) (l : List Char) :
    (l.dropWhile p).dropWhile p = l.dropWhile p := by
  induction l with
  | nil => simp
  | cons c cs ih =>
    rw [List.dropWhile_cons]
    split
    · exact ih
    · rename_i hpc
      rw [List.dropWhile_cons, if_neg hpc]

theorem rstrip_prefix_self (p : Char → Bool) (m : List Char) :
    (m.reverse.dropWhile p).reverse <+: m := by
  rw [← List.reverse_suffix]
  simpa using List.dropWhile_suffix (l := m.reverse) p

theorem dropWhile_of_prefix_self (p : Char → Bool) {b m : List Char} (hb : b <+: m)
    (hm : m.dropWhile p = m) : b.dropWhile p = b := by
  cases b with
  | nil => simp
  | cons x xs =>
    obtain ⟨t, rfl⟩ := hb
    by_cases hpx : p x = true
    · rw [List.cons_append, List.dropWhile_cons, if_pos hpx] at hm
      have h1 := congrArg List.length hm
      have h2 := length_dropWhile_self_le p (xs ++ t)
      simp only [List.length_append, List.length_cons] at h1 h2
      omega
    · rw [List.dropWhile_cons, if_neg hpx]

theorem pyStrip_idem (l : List Char) : pyStrip (pyStrip l) = pyStrip l := by
  have h1 : (l.dropWhile pyIsSpace).dropWhile pyIsSpace = l.dropWhile pyIsSpace :=
    dropWhile_idem _ l
  have h2 : pyStrip l <+: l.dropWhile pyIsSpace := rstrip_prefix_self _ _
  have h3 : (pyStrip l).dropWhile pyIsSpace = pyStrip l :=
    dropWhile_of_prefix_self _ h2 h1
  show (((pyStrip l).dropWhile pyIsSpace).reverse.dropWhile pyIsSpace).reverse = pyStrip l
  rw [h3]
  have h4 : (pyStrip l).reverse = (l.dropWhile pyIsSpace).reverse.dropWhile pyIsSpace := by
    simp [pyStrip]
  rw [h4, dropWhile_idem, ← h4, List.reverse_reverse]

theorem dropWhile_eq_self_all (p : Char → Bool) {l : List Char}
    (h : ∀ c ∈ l, p c = false) : l.dropWhile p = l := by
  cases l with
  | nil => simp
  | cons c cs =>
    rw [List.dropWhile_cons, if_neg]
    simp [h c (by simp)]

theorem pyStrip_eq_self {l : List Char} (h : ∀ c ∈ l, pyIsSpace c = false) :
    pyStrip l = l := by
  rw [pyStrip, dropWhile_eq_self_all _ h, dropWhile_eq_self_all, List.reverse_reverse]
  intro c hc
  exact h c (by simpa using hc)

theorem mKw_sub (kw : List Char) : MatchSub (mKw kw) := by
  intro l r rest h c hc
  rw [mKw] at h
  split at h
  · simp at h
  · split at h
    · simp only [Option.some.injEq, Prod.mk.injEq] at h
      obtain ⟨rfl, rfl⟩ := h
      rcases hc with hc | hc
      · simp at hc
      · exact List.mem_of_mem_drop hc
    · simp at h

theorem mem_foldl_replaceDrop {c : Char} (kws : List (List Char)) :
    ∀ {l : List Char}, c ∈ kws.foldl (fun acc kw => replaceDrop kw acc) l → c ∈ l := by
  induction kws with
  | nil => intro l h; simpa using h
  | cons kw kws ih =>
    intro l h
    simp only [List.foldl_cons] at h
    exact applySub_mem (mKw_sub kw) l c (ih h)

theorem mem_customKeywordsPass {c : Char} {s l : List Char}
    (h : c ∈ customKeywordsPass s l) : c ∈ l := by
  rw [customKeywordsPass] at h
  split at h
  · exact mem_foldl_replaceDrop _ h
  · exact h

/-! ## Idempotence on the emoji/whitespace fragment -/

theorem clean_text_ew (t : List Char) (e w : Bool) :
    clean_text t { removeEmoji := e, removeWhitespace := w } =
      if t = [] then t
      else pyStrip (if w = true then
          removeAllWhitespace (if e = true then removeEmojiPass t else t)
        else collapseSpaces (if e = true then removeEmojiPass t else t)) := by
  rfl

theorem clean_text_idem_ew (t : List Char) (e w : Bool) :
    clean_text (clean_text t { removeEmoji := e, removeWhitespace := w })
        { removeEmoji := e, removeWhitespace := w } =
      clean_text t { removeEmoji := e, removeWhitespace := w } := by
  by_cases ht : t = []
  · subst ht; rfl
  · cases e <;> cases w
    · -- no option set: strip of collapse
      have hseq : clean_text t { removeEmoji := false, removeWhitespace := false } =
          pyStrip (collapseSpaces t) := by
        rw [clean_text_ew, if_neg ht]
        exact rfl
      rw [hseq]
      by_cases hP : pyStrip (collapseSpaces t) = []
      · rw [hP]; rfl
      · rw [clean_text_ew, if_neg hP]
        have hnds : noDoubleSpace (pyStrip (collapseSpaces t)) = true :=
          noDoubleSpace_mono (pyStrip_infix_self _) (noDoubleSpace_collapse t)
        show pyStrip (collapseSpaces (pyStrip (collapseSpaces t))) = pyStrip (collapseSpaces t)
        rw [collapse_eq_self hnds]
        exact pyStrip_idem _
    · -- removeWhitespace only
      have hseq : clean_text t { removeEmoji := false, removeWhitespace := true } =
          pyStrip (removeAllWhitespace t) := by
        rw [clean_text_ew, if_neg ht]
        exact rfl
      rw [hseq]
      by_cases hP : pyStrip (removeAllWhitespace t) = []
      · rw [hP]; rfl
      · rw [clean_text_ew, if_neg hP]
        have hmem : ∀ c ∈ pyStrip (removeAllWhitespace t), (!pyIsSpace c) = true := by
          intro c hc
          exact (List.mem_filter.mp (mem_pyStrip hc)).2
        show pyStrip (removeAllWhitespace (pyStrip (removeAllWhitespace t))) =
          pyStrip (removeAllWhitespace t)
        rw [show removeAllWhitespace (pyStrip (removeAllWhitespace t)) =
            pyStrip (removeAllWhitespace t) from List.filter_eq_self.mpr hmem]
        exact pyStrip_eq_self (fun c hc => by simpa using hmem c hc)
    · -- removeEmoji only
      have hseq : clean_text t { removeEmoji := true, removeWhitespace := false } =
          pyStrip (collapseSpaces (removeEmojiPass t)) := by
        rw [clean_text_ew, if_neg ht]
        exact rfl
      rw [hseq]
      by_cases hP : pyStrip (collapseSpaces (removeEmojiPass t)) = []
      · rw [hP]; rfl
      · rw [clean_text_ew, if_neg hP]
        have hmem : ∀ c ∈ pyStrip (collapseSpaces (removeEmojiPass t)),
            (decide (c.toNat < 0x10000)) = true := by
          intro c hc
          exact (List.mem_filter.mp (mem_collapse (mem_pyStrip hc))).2
        have hnds : noDoubleSpace (pyStrip (collapseSpaces (removeEmojiPass t))) = true :=
          noDoubleSpace_mono (pyStrip_infix_self _) (noDoubleSpace_collapse _)
        show pyStrip (collapseSpaces (removeEmojiPass
            (pyStrip (collapseSpaces (removeEmojiPass t))))) =
          pyStrip (collapseSpaces (removeEmojiPass t))
        rw [show removeEmojiPass (pyStrip (collapseSpaces (removeEmojiPass t))) =
            pyStrip (collapseSpaces (removeEmojiPass t)) from List.filter_eq_self.mpr hmem]
        rw [collapse_eq_self hnds]
        exact pyStrip_idem _
    · -- removeEmoji and removeWhitespace
      have hseq : clean_text t { removeEmoji := true, removeWhitespace := true } =
          pyStrip (removeAllWhitespace (removeEmojiPass t)) := by
        rw [clean_text_ew, if_neg ht]
        exact rfl
      rw [hseq]
      by_cases hP : pyStrip (removeAllWhitespace (removeEmojiPass t)) = []
      · rw [hP]; rfl
      · rw [clean_text_ew, if_neg hP]
        have hmemE : ∀ c ∈ pyStrip (removeAllWhitespace (removeEmojiPass t)),
            (decide (c.toNat < 0x10000)) = true := by
          intro c hc
          exact (List.mem_filter.mp (List.mem_filter.mp (mem_pyStrip hc)).1).2
        have hmemW : ∀ c ∈ pyStrip (removeAllWhitespace (removeEmojiPass t)),
            (!pyIsSpace c) = true := by
          intro c hc
          exact (List.mem_filter.mp (mem_pyStrip hc)).2
        show pyStrip (removeAllWhitespace (removeEmojiPass
            (pyStrip (removeAllWhitespace (removeEmojiPass t))))) =
          pyStrip (removeAllWhitespace (removeEmojiPass t))
        rw [show removeEmojiPass (pyStrip (removeAllWhitespace (removeEmojiPass t))) =
            pyStrip (removeAllWhitespace (removeEmojiPass t)) from List.filter_eq_self.mpr hmemE]
        rw [show removeAllWhitespace (pyStrip (removeAllWhitespace (removeEmojiPass t))) =
            pyStrip (removeAllWhitespace (removeEmojiPass t)) from List.filter_eq_self.mpr hmemW]
        exact pyStrip_eq_self (fun c hc => by simpa using hmemW c hc)

/-! ## Whitespace behavior of clean_text (C5) -/

theorem clean_text_eq (t : List Char) (o : CleaningOptions) (ht : t ≠ []) :
    clean_text t o = pyStrip (customKeywordsPass o.customKeywords
      (wsStage o (citStage o (urlStage o (emojiStage o (mdStage o t)))))) := by
  rw [clean_text, if_neg ht]

/-- With `removeWhitespace` set, no whitespace character survives `clean_text`:
the whitespace removal strips them all, and the later custom-keyword pass and
final trim only ever delete characters. -/
theorem clean_text_all_nonspace (t : List Char) (o : CleaningOptions)
    (hw : o.removeWhitespace = true) :
    (clean_text t o).all (fun c => !pyIsSpace c) = true := by
  by_cases ht : t = []
  · subst ht; rfl
  · rw [clean_text_eq t o ht]
    refine List.all_eq_true.mpr fun c hc => ?_
    have h1 := mem_customKeywordsPass (mem_pyStrip hc)
    rw [wsStage, hw] at h1
    simp only [if_pos] at h1
    exact (List.mem_filter.mp h1).2

/-- With `removeWhitespace` unset and no custom keywords, the output never
contains two consecutive spaces (the collapse step ran last among the
character-removing transforms, and the final trim keeps interior runs intact). -/
theorem clean_text_noDoubleSpace (t : List Char) (o : CleaningOptions)
    (hw : o.removeWhitespace = false) (hk : o.customKeywords = []) :
    noDoubleSpace (clean_text t o) = true := by
  by_cases ht : t = []
  · subst ht; rfl
  · rw [clean_text_eq t o ht, hk]
    show noDoubleSpace (pyStrip (wsStage o (citStage o (urlStage o
      (emojiStage o (mdStage o t)))))) = true
    rw [wsStage, hw]
    simp only [Bool.false_eq_true, if_false]
    exact noDoubleSpace_mono (pyStrip_infix_self _) (noDoubleSpace_collapse _)

/-- The space-collapsing step touches only space characters: every other
character (newlines in particular) is preserved with its multiplicity. -/
theorem count_collapse (c : Char) (hc : c ≠ ' ') (l : List Char) :
    (collapseSpaces l).count c = l.count c := by
  induction l using collapseSpaces.induct with
  | case1 => rfl
  | case2 d => rfl
  | case3 c1 c2 rest h ih =>
    rw [collapseSpaces, if_pos h]
    rw [ih]
    have : (c1 == c) = false := by
      rw [h.1]
      exact beq_false_of_ne (Ne.symm hc)
    simp [List.count_cons, this]
  | case4 c1 c2 rest h ih =>
    rw [collapseSpaces, if_neg h]
    simp [List.count_cons, ih]

/-! ## The heading step (C9) -/

theorem mHead_at_hash (t : List Char) :
    ∃ rest, mHead ('#' :: t) = some ([], rest) ∧ rest.length ≤ t.length := by
  rw [mHead]
  simp only [if_pos]
  rcases hr0 : t.drop (min ((t.takeWhile (fun x => x == '#')).length) 5) with _ | ⟨d, ds⟩
  · exact ⟨[], rfl, by simp⟩
  · have hlen := congrArg List.length hr0
    simp only [List.length_drop, List.length_cons] at hlen
    dsimp only
    split
    · exact ⟨ds, rfl, by omega⟩
    · exact ⟨d :: ds, rfl, by simp only [List.length_cons]; omega⟩

theorem mHead_none_of_ne {c : Char} (t : List Char) (hc : c ≠ '#') :
    mHead (c :: t) = none := by
  rw [mHead, if_neg hc]

theorem subst_mHead_no_hash : ∀ (f : Nat) (l : List Char), l.length ≤ f →
    '#' ∉ subst mHead f l := by
  intro f
  induction f with
  | zero =>
    intro l hl
    have : l = [] := List.length_eq_zero.mp (Nat.le_zero.mp hl)
    subst this
    simp [subst]
  | succ f ih =>
    intro l hl
    cases l with
    | nil => simp [subst]
    | cons c cs =>
      rw [subst]
      by_cases hc : c = '#'
      · subst hc
        obtain ⟨rest, hm, hrest⟩ := mHead_at_hash cs
        rw [hm]
        simp only [List.nil_append]
        simp only [List.length_cons] at hl
        exact ih rest (by omega)
      · rw [mHead_none_of_ne cs hc]
        intro hmem
        simp only [List.length_cons] at hl
        rcases List.mem_cons.mp hmem with h | h
        · exact hc h.symm
        · exact ih cs (by omega) h

/-- After the heading step, no `#` remains at all (every `#` starts a match of
`#{1,6}\s?`, so the unanchored `re.sub` consumes them all). -/
theorem stripHeaders_no_hash (l : List Char) : (stripHeaders l).contains '#' = false := by
  have h := subst_mHead_no_hash l.length l (Nat.le_refl _)
  rw [← Bool.not_eq_true]
  intro hcon
  exact h (List.elem_iff.mp hcon)

/-! ## Characterization of generate_speech -/

/-- The payload that lines 87-94 build once the floats converted and the
cleaned text is non-empty. -/
def payloadOf (data : RequestData) (speed pitch : ℚ) : Payload :=
  { model := ("tts-1-").toList ++ data.voice.getD (("shimmer").toList),
    input := clean_text (data.input.getD []) (data.cleaningOptions.getD {}),
    voice := (lookupVoice VOICE_MAP (data.voice.getD (("shimmer").toList))).getD
      (data.voice.getD (("shimmer").toList)),
    speed := speed, pitch := pitch, stream := true }

theorem generate_speech_eq (data : RequestData)
    (provider : Payload → Except (List Char) ProviderResponse) (qs qp : ℚ)
    (hs : pyFloat (data.speed.getD (JVal.num 1)) = .ok qs)
    (hp : pyFloat (data.pitch.getD (JVal.num 1)) = .ok qp) :
    generate_speech data provider =
      (if clean_text (data.input.getD []) (data.cleaningOptions.getD {}) = [] then
        (.errorJson 400 emptyTextMsg, none)
      else
        match provider (payloadOf data qs qp) with
        | .error e => (.errorJson 500 e, some (payloadOf data qs qp))
        | .ok response =>
          if response.status_code ≠ 200 then
            (.errorJson response.status_code
              (("API Error: ").toList ++ response.text), some (payloadOf data qs qp))
          else
            (.stream response.chunks
              (response.contentType.getD (("audio/mpeg").toList)), some (payloadOf data qs qp))) := by
  unfold generate_speech
  rw [hs, hp]
  exact rfl

theorem generate_speech_speed_error (data : RequestData)
    (provider : Payload → Except (List Char) ProviderResponse) (e : List Char)
    (hs : pyFloat (data.speed.getD (JVal.num 1)) = .error e) :
    generate_speech data provider = (.uncaught e, none) := by
  unfold generate_speech
  rw [hs]

/-- Line 70: when the speed conversion went through and the pitch conversion
raises, the pitch error escapes the handler just the same. -/
theorem generate_speech_pitch_error (data : RequestData)
    (provider : Payload → Except (List Char) ProviderResponse) (qs : ℚ) (e : List Char)
    (hs : pyFloat (data.speed.getD (JVal.num 1)) = .ok qs)
    (hp : pyFloat (data.pitch.getD (JVal.num 1)) = .error e) :
    generate_speech data provider = (.uncaught e, none) := by
  unfold generate_speech
  rw [hs, hp]

/-- Inversion: whenever the embedding reports an upstream call, the floats
converted, the cleaned text was non-empty, and the payload is the one of
lines 87-94. -/
theorem generate_speech_call {data : RequestData}
    {provider : Payload → Except (List Char) ProviderResponse} {p : Payload}
    (h : (generate_speech data provider).2 = some p) :
    clean_text (data.input.getD []) (data.cleaningOptions.getD {}) ≠ [] ∧
      ∃ qs qp, pyFloat (data.speed.getD (JVal.num 1)) = .ok qs ∧
        pyFloat (data.pitch.getD (JVal.num 1)) = .ok qp ∧ p = payloadOf data qs qp := by
  rcases hsp : pyFloat (data.speed.getD (JVal.num 1)) with e | qs
  · rw [generate_speech_speed_error data provider e hsp] at h
    simp at h
  · rcases hpi : pyFloat (data.pitch.getD (JVal.num 1)) with e | qp
    · have : generate_speech data provider = (.uncaught e, none) := by
        unfold generate_speech
        rw [hsp, hpi]
      rw [this] at h
      simp at h
    · rw [generate_speech_eq data provider qs qp hsp hpi] at h
      by_cases ht : clean_text (data.input.getD []) (data.cleaningOptions.getD {}) = []
      · rw [if_pos ht] at h
        simp at h
      · rw [if_neg ht] at h
        refine ⟨ht, qs, qp, rfl, rfl, ?_⟩
        rcases hpr : provider (payloadOf data qs qp) with e | resp
        · rw [hpr] at h
          simp at h
          exact h.symm
        · rw [hpr] at h
          dsimp only at h
          split at h <;>
            · simp at h
              exact h.symm

/-- The provider-error path of lines 100-101: the caller gets the provider
status, and the provider body wrapped in an "API Error: " message. -/
theorem generate_speech_provider_error {data : RequestData}
    {provider : Payload → Except (List Char) ProviderResponse} {p : Payload}
    {resp : ProviderResponse}
    (h : (generate_speech data provider).2 = some p)
    (hpr : provider p = .ok resp) (hst : resp.status_code ≠ 200) :
    (generate_speech data provider).1 =
      .errorJson resp.status_code (("API Error: ").toList ++ resp.text) := by
  obtain ⟨ht, qs, qp, hsp, hpi, rfl⟩ := generate_speech_call h
  rw [generate_speech_eq data provider qs qp hsp hpi, if_neg ht, hpr]
  dsimp only
  rw [if_pos hst]

theorem lookupVoice_not_mem (m : List (List Char × List Char)) :
    ∀ k, k ∉ m.map Prod.fst → lookupVoice m k = none := by
  induction m with
  | nil => intro k _; rfl
  | cons kv rest ih =>
    intro k h
    obtain ⟨a, v⟩ := kv
    simp only [List.map_cons, List.mem_cons, not_or] at h
    rw [lookupVoice, if_neg h.1]
    exact ih k h.2

/-! ## The claims -/

/-- C1 counterexample: on the input of end-to-end scenario 1 with
removeMarkdown, removeUrl and removeCitations set, clean_text does NOT return
"Hello world": the link rule keeps the label, so "link" survives. -/
theorem c1_counterexample :
    clean_text (("Hello **world** [link](http://x.com) [1]").toList)
        { removeMarkdown := true, removeUrl := true, removeCitations := true } ≠
      ("Hello world").toList := by
  decide

/-- C1 (amended): on the input of end-to-end scenario 1 with removeMarkdown,
removeUrl and removeCitations set, clean_text returns exactly
"Hello world link" — the link label is preserved, as the link transform
specifies. -/
theorem c1_scenario_amended :
    clean_text (("Hello **world** [link](http://x.com) [1]").toList)
        { removeMarkdown := true, removeUrl := true, removeCitations := true } =
      ("Hello world link").toList := by
  decide

/-- C2 counterexample: a provider double answers status 502 with raw body
"boom"; the relay responds with the provider status but with the JSON error
message "API Error: boom", which differs from the raw body — the body is not
surfaced unchanged. -/
theorem c2_counterexample :
    (generate_speech { input := some (("hi").toList) }
        (fun _ => .ok { status_code := 502, text := ("boom").toList,
                        contentType := none, chunks := [] })).1 =
      .errorJson 502 (("API Error: boom").toList) ∧
    ("API Error: boom").toList ≠ ("boom").toList := by
  constructor
  · decide
  · decide

/-- C2 (amended): whenever the provider answers an issued request with a
status other than 200, the relay responds with exactly the provider status
code, and with the JSON error object whose message is the concatenation
"API Error: " ++ provider body — the status passes through unchanged, the
body is wrapped rather than returned raw. -/
theorem c2_provider_error_passthrough (data : RequestData)
    (provider : Payload → Except (List Char) ProviderResponse) (p : Payload)
    (resp : ProviderResponse)
    (h : (generate_speech data provider).2 = some p)
    (hpr : provider p = .ok resp) (hst : resp.status_code ≠ 200) :
    (generate_speech data provider).1 =
      .errorJson resp.status_code (("API Error: ").toList ++ resp.text) :=
  generate_speech_provider_error h hpr hst

/-- C2 witness: the amended theorem applied to the 502/"boom" provider double. -/
theorem c2_witness :
    (generate_speech { input := some (("hi").toList) }
        (fun _ => .ok { status_code := 502, text := ("boom").toList,
                        contentType := none, chunks := [] })).1 =
      .errorJson 502 (("API Error: ").toList ++ ("boom").toList) :=
  c2_provider_error_passthrough
    { input := some (("hi").toList) }
    (fun _ => .ok { status_code := 502, text := ("boom").toList,
                    contentType := none, chunks := [] })
    { model := ("tts-1-shimmer").toList, input := ("hi").toList,
      voice := ("zh-CN-XiaoxiaoNeural").toList, speed := 1, pitch := 1, stream := true }
    { status_code := 502, text := ("boom").toList, contentType := none, chunks := [] }
    (by decide) rfl (by decide)

/-- C3 counterexample: a request whose input text is absent but whose speed
field is the unparsable string "abc" does not get the HTTP 400 validation
answer: the float conversion (line 69) runs before the cleaning check and
raises, so the endpoint fails with an uncaught exception instead. -/
theorem c3_counterexample :
    generate_speech { speed := some (JVal.str (("abc").toList)) }
        (fun _ => .ok { status_code := 200, text := [], contentType := none, chunks := [] }) =
      (.uncaught (floatErrMsg (("abc").toList)), none) ∧
    RelayOutcome.uncaught (floatErrMsg (("abc").toList)) ≠
      RelayOutcome.errorJson 400 emptyTextMsg := by
  constructor
  · decide
  · decide

/-- C3 (amended): provided speed and pitch convert (absent or parsable), a
request whose text cleans to the empty string is answered with HTTP 400 and
the validation message, and no provider call is made (the recorded payload is
`none`, independent of the provider); and unconditionally, a provider request
is only ever issued when the cleaned text is non-empty. -/
theorem c3_empty_input_validation :
    (∀ (data : RequestData) (provider : Payload → Except (List Char) ProviderResponse)
        (qs qp : ℚ),
      pyFloat (data.speed.getD (JVal.num 1)) = .ok qs →
      pyFloat (data.pitch.getD (JVal.num 1)) = .ok qp →
      clean_text (data.input.getD []) (data.cleaningOptions.getD {}) = [] →
      generate_speech data provider = (.errorJson 400 emptyTextMsg, none)) ∧
    (∀ (data : RequestData) (provider : Payload → Except (List Char) ProviderResponse)
        (p : Payload),
      (generate_speech data provider).2 = some p →
      clean_text (data.input.getD []) (data.cleaningOptions.getD {}) ≠ []) := by
  constructor
  · intro data provider qs qp hs hp hcl
    rw [generate_speech_eq data provider qs qp hs hp, if_pos hcl]
  · intro data provider p h
    exact (generate_speech_call h).1

/-- C3 witness: a whitespace-only input is rejected with 400 and no call; a
request that did call the provider had non-empty cleaned text. -/
theorem c3_witness :
    generate_speech { input := some (("  ").toList) }
        (fun _ => .ok { status_code := 200, text := [], contentType := none, chunks := [] }) =
      (.errorJson 400 emptyTextMsg, none) ∧
    clean_text (({ input := some (("hi").toList) } : RequestData).input.getD [])
        (({ input := some (("hi").toList) } : RequestData).cleaningOptions.getD {}) ≠ [] := by
  constructor
  · exact c3_empty_input_validation.1 { input := some (("  ").toList) }
      (fun _ => .ok { status_code := 200, text := [], contentType := none, chunks := [] })
      1 1 rfl rfl (by decide)
  · exact c3_empty_input_validation.2 { input := some (("hi").toList) }
      (fun _ => .ok { status_code := 200, text := [], contentType := none, chunks := [] })
      { model := ("tts-1-shimmer").toList, input := ("hi").toList,
        voice := ("zh-CN-XiaoxiaoNeural").toList, speed := 1, pitch := 1, stream := true }
      (by decide)

/-- C4 counterexample: with removeCitations set, clean_text is not idempotent:
on "[1[2]3]" one pass removes the inner citation "[2]" and leaves "[13]",
which a second pass removes entirely. -/
theorem c4_counterexample :
    clean_text (clean_text (("[1[2]3]").toList) { removeCitations := true })
        { removeCitations := true } ≠
      clean_text (("[1[2]3]").toList) { removeCitations := true } := by
  decide

/-- C4 (amended): clean_text is idempotent for every options record in which
removeMarkdown, removeUrl and removeCitations are unset and customKeywords is
empty — that is, with only removeEmoji and/or removeWhitespace enabled (those
transforms are character filters, and collapsing plus trimming stabilizes
after one pass).  With removeCitations (or links, or keywords) enabled,
removal can create fresh matches, falsifying the general statement. -/
theorem c4_idempotent_amended (t : List Char) (e w : Bool) :
    clean_text (clean_text t { removeEmoji := e, removeWhitespace := w })
        { removeEmoji := e, removeWhitespace := w } =
      clean_text t { removeEmoji := e, removeWhitespace := w } :=
  clean_text_idem_ew t e w

/-- C5 counterexample: with no options set, clean_text on "\na" returns "a" —
the leading newline is removed by the final trim, so newlines are not
preserved in the output as the claim states. -/
theorem c5_counterexample :
    clean_text (['\n', 'a']) {} = ['a'] ∧
    List.count '\n' (clean_text (['\n', 'a']) {}) ≠ List.count '\n' ['\n', 'a'] := by
  constructor
  · decide
  · decide

/-- C5 (amended): with removeWhitespace set the output of clean_text contains
no whitespace character at all; with it unset and no custom keywords
configured, the output contains no run of two or more consecutive spaces; the
space-collapsing step itself preserves newlines (their count is unchanged),
but the final trim — and other enabled transforms — may still remove
newlines from the overall output.  Exactly one of the two whitespace branches
applies per call.  Scenario: "a  b   c" with no options set yields "a b c". -/
theorem c5_whitespace_behavior :
    (∀ (t : List Char) (o : CleaningOptions), o.removeWhitespace = true →
      (clean_text t o).all (fun c => !pyIsSpace c) = true) ∧
    (∀ (t : List Char) (o : CleaningOptions), o.removeWhitespace = false →
      o.customKeywords = [] → noDoubleSpace (clean_text t o) = true) ∧
    (∀ l : List Char, (collapseSpaces l).count '\n' = l.count '\n') ∧
    clean_text (("a  b   c").toList) {} = ("a b c").toList := by
  refine ⟨clean_text_all_nonspace, clean_text_noDoubleSpace, ?_, by decide⟩
  exact count_collapse '\n' (by decide)

/-- C5 witness: the whitespace dichotomy at concrete inputs. -/
theorem c5_witness :
    (clean_text (("a \tb").toList) { removeWhitespace := true }).all
      (fun c => !pyIsSpace c) = true ∧
    noDoubleSpace (clean_text (("x [1] y").toList) { removeCitations := true }) = true ∧
    (collapseSpaces (("a \n  b").toList)).count '\n' = (("a \n  b").toList).count '\n' := by
  refine ⟨?_, ?_, ?_⟩
  · exact c5_whitespace_behavior.1 (("a \tb").toList) { removeWhitespace := true } rfl
  · exact c5_whitespace_behavior.2.1 (("x [1] y").toList) { removeCitations := true } rfl rfl
  · exact c5_whitespace_behavior.2.2.1 (("a \n  b").toList)

/-- C6: the customKeywords transform parses the configured string by
splitting on commas, trimming each token and dropping empty tokens, then
removes the surviving keywords as literal case-sensitive text by folding
left-to-right over the keyword list, each removal acting on the current state
of the string.  Concretely: regex-special characters such as `.` or `(` have
no pattern meaning ("a.c" does not match "abc", "." removes only literal
dots); matching is case-sensitive ("A" leaves "a" alone); and keyword order
matters because each keyword sees the output of the previous keyword
("a,ab" on "ab" gives "b" while "ab,a" gives ""). -/
theorem c6_custom_keywords :
    (∀ s l : List Char, customKeywordsPass s l =
      (parseKeywords s).foldl (fun acc kw => replaceDrop kw acc) l) ∧
    parseKeywords ((" a , , b.c ").toList) = [("a").toList, ("b.c").toList] ∧
    customKeywordsPass (("a.c").toList) (("abc").toList) = ("abc").toList ∧
    customKeywordsPass ((".").toList) (("a.b.c").toList) = ("abc").toList ∧
    customKeywordsPass (("A").toList) (("aA").toList) = ("a").toList ∧
    customKeywordsPass (("a,ab").toList) (("ab").toList) = ("b").toList ∧
    customKeywordsPass (("ab,a").toList) (("ab").toList) = [] ∧
    clean_text (("x(1)y").toList) { customKeywords := ("(1)").toList } = ("xy").toList := by
  refine ⟨?_, by decide, by decide, by decide, by decide, by decide, by decide, by decide⟩
  intro s l
  rw [customKeywordsPass]
  split
  · rfl
  · rename_i h
    have hs : s = [] := by simpa using h
    subst hs
    rfl

/-- C7: the voice key "nova" resolves to the provider voice name
"zh-CN-YunxiNeural"; a key not present in VOICE_MAP passes through unchanged
as the provider voice name; and every payload actually sent upstream carries
the model identifier "tts-1-" ++ the unresolved caller voice key together
with the resolved voice name. -/
theorem c7_voice_resolution :
    lookupVoice VOICE_MAP (("nova").toList) = some (("zh-CN-YunxiNeural").toList) ∧
    (∀ k : List Char, k ∉ VOICE_MAP.map Prod.fst →
      (lookupVoice VOICE_MAP k).getD k = k) ∧
    (∀ (data : RequestData) (provider : Payload → Except (List Char) ProviderResponse)
        (p : Payload), (generate_speech data provider).2 = some p →
      p.model = ("tts-1-").toList ++ data.voice.getD (("shimmer").toList) ∧
      p.voice = (lookupVoice VOICE_MAP (data.voice.getD (("shimmer").toList))).getD
        (data.voice.getD (("shimmer").toList))) := by
  refine ⟨by decide, ?_, ?_⟩
  · intro k hk
    rw [lookupVoice_not_mem VOICE_MAP k hk]
    rfl
  · intro data provider p h
    obtain ⟨ht, qs, qp, hsp, hpi, rfl⟩ := generate_speech_call h
    exact ⟨rfl, rfl⟩

/-- C7 witness: the unmapped key "custom-voice" passes through, and the
payload of a concrete call carries model "tts-1-custom-voice" and that
fallback voice. -/
theorem c7_witness :
    (lookupVoice VOICE_MAP (("custom-voice").toList)).getD (("custom-voice").toList) =
      ("custom-voice").toList ∧
    (({ model := ("tts-1-custom-voice").toList, input := ("hi").toList,
        voice := ("custom-voice").toList, speed := 1, pitch := 1,
        stream := true } : Payload).model =
      ("tts-1-").toList ++
        ({ input := some (("hi").toList),
           voice := some (("custom-voice").toList) } : RequestData).voice.getD
          (("shimmer").toList) ∧
     ({ model := ("tts-1-custom-voice").toList, input := ("hi").toList,
        voice := ("custom-voice").toList, speed := 1, pitch := 1,
        stream := true } : Payload).voice =
      (lookupVoice VOICE_MAP
          (({ input := some (("hi").toList),
              voice := some (("custom-voice").toList) } : RequestData).voice.getD
            (("shimmer").toList))).getD
        (({ input := some (("hi").toList),
            voice := some (("custom-voice").toList) } : RequestData).voice.getD
          (("shimmer").toList))) := by
  constructor
  · exact c7_voice_resolution.2.1 (("custom-voice").toList) (by decide)
  · exact c7_voice_resolution.2.2
      { input := some (("hi").toList), voice := some (("custom-voice").toList) }
      (fun _ => .ok { status_code := 200, text := [], contentType := none, chunks := [] })
      { model := ("tts-1-custom-voice").toList, input := ("hi").toList,
        voice := ("custom-voice").toList, speed := 1, pitch := 1, stream := true }
      (by decide)

/-- C8 counterexample: with speed supplied as the unparsable string "abc" the
endpoint does not silently default to 1.0 — the float conversion raises and
the request dies with an uncaught exception before any work, which differs
from the behavior with speed absent (a successful stream). -/
theorem c8_counterexample :
    generate_speech
        { input := some (("hi").toList), speed := some (JVal.str (("abc").toList)) }
        (fun _ => .ok { status_code := 200, text := [], contentType := none,
                        chunks := [("A").toList] }) =
      (.uncaught (floatErrMsg (("abc").toList)), none) ∧
    generate_speech
        { input := some (("hi").toList), speed := some (JVal.str (("abc").toList)) }
        (fun _ => .ok { status_code := 200, text := [], contentType := none,
                        chunks := [("A").toList] }) ≠
      generate_speech { input := some (("hi").toList) }
        (fun _ => .ok { status_code := 200, text := [], contentType := none,
                        chunks := [("A").toList] }) := by
  constructor
  · decide
  · decide

/-- C8 (amended): each of speed and pitch is silently defaulted to 1.0
exactly when that field is absent — in every payload sent upstream, an absent
speed field shows up as speed = 1 and an absent pitch field as pitch = 1,
independently of the other field; when a supplied value is an unparsable
string, the `float` call raises an uncaught conversion error and no provider
call is made — no silent default.  This covers both fields: an unparsable
speed raises at line 69; a parsable (or absent) speed followed by an
unparsable pitch raises at line 70. -/
theorem c8_speed_pitch_defaults :
    (∀ (data : RequestData) (provider : Payload → Except (List Char) ProviderResponse)
        (p : Payload), (generate_speech data provider).2 = some p →
      (data.speed = none → p.speed = 1) ∧ (data.pitch = none → p.pitch = 1)) ∧
    (∀ (data : RequestData) (provider : Payload → Except (List Char) ProviderResponse)
        (s : List Char), data.speed = some (JVal.str s) → pyFloatOfStr s = none →
      generate_speech data provider = (.uncaught (floatErrMsg s), none)) ∧
    (∀ (data : RequestData) (provider : Payload → Except (List Char) ProviderResponse)
        (qs : ℚ) (s : List Char), pyFloat (data.speed.getD (JVal.num 1)) = .ok qs →
      data.pitch = some (JVal.str s) → pyFloatOfStr s = none →
      generate_speech data provider = (.uncaught (floatErrMsg s), none)) := by
  refine ⟨?_, ?_, ?_⟩
  · intro data provider p h
    obtain ⟨ht, qs, qp, hsp, hpi, rfl⟩ := generate_speech_call h
    constructor
    · intro hsn
      rw [hsn] at hsp
      simp only [Option.getD_none, pyFloat, Except.ok.injEq] at hsp
      exact hsp.symm
    · intro hpn
      rw [hpn] at hpi
      simp only [Option.getD_none, pyFloat, Except.ok.injEq] at hpi
      exact hpi.symm
  · intro data provider s hsp hnone
    have he : pyFloat (data.speed.getD (JVal.num 1)) = .error (floatErrMsg s) := by
      rw [hsp]
      simp only [Option.getD_some, pyFloat, hnone]
    exact generate_speech_speed_error data provider _ he
  · intro data provider qs s hqs hpitch hnone
    have he : pyFloat (data.pitch.getD (JVal.num 1)) = .error (floatErrMsg s) := by
      rw [hpitch]
      simp only [Option.getD_some, pyFloat, hnone]
    exact generate_speech_pitch_error data provider qs _ hqs he

/-- C8 witness: the per-field defaults at mixed concrete requests (speed
absent with pitch supplied, and the reverse), an unparsable speed, and a
parsable speed with an unparsable pitch. -/
theorem c8_witness :
    (({ model := ("tts-1-shimmer").toList, input := ("hi").toList,
        voice := ("zh-CN-XiaoxiaoNeural").toList, speed := 1, pitch := 2,
        stream := true } : Payload).speed = 1) ∧
    (({ model := ("tts-1-shimmer").toList, input := ("hi").toList,
        voice := ("zh-CN-XiaoxiaoNeural").toList, speed := 3, pitch := 1,
        stream := true } : Payload).pitch = 1) ∧
    generate_speech
        { input := some (("hi").toList), speed := some (JVal.str (("xyz").toList)) }
        (fun _ => .ok { status_code := 200, text := [], contentType := none, chunks := [] }) =
      (.uncaught (floatErrMsg (("xyz").toList)), none) ∧
    generate_speech
        { input := some (("hi").toList), pitch := some (JVal.str (("abc").toList)) }
        (fun _ => .ok { status_code := 200, text := [], contentType := none, chunks := [] }) =
      (.uncaught (floatErrMsg (("abc").toList)), none) := by
  refine ⟨?_, ?_, ?_, ?_⟩
  · exact (c8_speed_pitch_defaults.1
      { input := some (("hi").toList), pitch := some (JVal.num 2) }
      (fun _ => .ok { status_code := 200, text := [], contentType := none, chunks := [] })
      { model := ("tts-1-shimmer").toList, input := ("hi").toList,
        voice := ("zh-CN-XiaoxiaoNeural").toList, speed := 1, pitch := 2, stream := true }
      (by decide)).1 rfl
  · exact (c8_speed_pitch_defaults.1
      { input := some (("hi").toList), speed := some (JVal.num 3) }
      (fun _ => .ok { status_code := 200, text := [], contentType := none, chunks := [] })
      { model := ("tts-1-shimmer").toList, input := ("hi").toList,
        voice := ("zh-CN-XiaoxiaoNeural").toList, speed := 3, pitch := 1, stream := true }
      (by decide)).2 rfl
  · exact c8_speed_pitch_defaults.2.1
      { input := some (("hi").toList), speed := some (JVal.str (("xyz").toList)) }
      (fun _ => .ok { status_code := 200, text := [], contentType := none, chunks := [] })
      (("xyz").toList) rfl (by decide)
  · exact c8_speed_pitch_defaults.2.2
      { input := some (("hi").toList), pitch := some (JVal.str (("abc").toList)) }
      (fun _ => .ok { status_code := 200, text := [], contentType := none, chunks := [] })
      1 (("abc").toList) rfl rfl (by decide)

/-- C9 counterexample: with removeMarkdown set, the `#` of "a#b" is not in a
leading heading position, yet the heading step removes it: the output is
"ab", not "a#b". -/
theorem c9_counterexample :
    clean_text (("a#b").toList) { removeMarkdown := true } = ("ab").toList ∧
    ("ab").toList ≠ ("a#b").toList := by
  constructor
  · decide
  · decide

/-- C9 (amended): the heading step removes every occurrence, anywhere in the
string, of a run of one to six `#` characters plus at most one immediately
following whitespace character (any whitespace, not only a space) — the
pattern is unanchored, so no `#` survives the step at all; a seven-`#` run is
consumed as a six-run plus a one-run; of several following spaces only the
first is consumed. -/
theorem c9_heading_step_amended :
    (∀ t : List Char, (stripHeaders t).contains '#' = false) ∧
    stripHeaders (("## title").toList) = ("title").toList ∧
    stripHeaders (("a#b").toList) = ("ab").toList ∧
    stripHeaders (['#', '\t', 'x']) = ['x'] ∧
    stripHeaders (("#  x").toList) = (" x").toList ∧
    stripHeaders (("####### x").toList) = ("x").toList := by
  exact ⟨stripHeaders_no_hash, by decide, by decide, by decide, by decide, by decide⟩

/-- C10: for every input text and every options record, clean_text never
makes the string longer — each substitution replaces a match by something at
most as long, the filters and the final trim only delete. -/
theorem c10_length_nonincreasing (t : List Char) (o : CleaningOptions) :
    (clean_text t o).length ≤ t.length :=
  clean_text_length_le t o
